import Mathlib

/-!
Verification development for the VAT ABCD crawler.

The development shallowly embeds the crawler's core components:

* the streaming ABCD XML parser (`src/abcd/abcd_parser.rs`): tag stripping,
  the per-event state transition, landing-page resolution and the
  `NoDatasetMetadata` failure path;
* the surrogate-key registry (`src/storage/surrogate_key.rs`);
* the dataset/unit bulk loader (`src/storage/database_sink.rs`):
  deduplicated dataset inserts and the per-unit `geom` column.

Byte strings (`Vec<u8>` in the source) are modelled as lists of characters;
the source only ever manipulates them as opaque byte sequences, so the two
are isomorphic for every property proved here.  The XML reader (`quick_xml`)
is an external crate; its observable output, the event stream, is the input
of the embedded parser.  Floating point numbers are modelled as rationals
and the two external numeric routines (`str::parse::<f64>` and `Display`
for `f64`) are parameters of the embedding.
-/

/-- Byte strings of the source (`Vec<u8>`, `String`). -/
abbrev Bytes := List Char

/-- Conversion helper for literals. -/
def bytes (s : String) : Bytes := s.toList

/-- Tagged value type of the crawler (`src/vat_type.rs`, `enum VatType`). -/
inductive VatType where
  | textual (value : Bytes)
  | numeric (value : Rat)
deriving DecidableEq

/-- Value maps of the parser (`type ValueMap = HashMap<String, VatType>`).
The hash map is modelled as an association list; `minsert` keeps at most one
entry per key, mirroring the overwrite semantics of `HashMap::insert`. -/
abbrev ValueMap := List (Bytes × VatType)

/-- Lookup in an association list (`HashMap::get`). -/
def alistLookup {β : Type} (m : List (Bytes × β)) (k : Bytes) : Option β :=
  match m with
  | [] => none
  | (a, v) :: rest => if a = k then some v else alistLookup rest k

/-- Insertion into a value map (`HashMap::insert`): the new binding replaces
any previous binding of the same key. -/
def minsert (m : ValueMap) (k : Bytes) (v : VatType) : ValueMap :=
  (k, v) :: m.filter (fun p => decide (p.1 ≠ k))

/-- Field descriptor of the ABCD field dictionary
(`src/abcd/abcd_fields.rs`, `struct AbcdField`); only the components the
parser consults are carried. -/
structure AbcdField where
  name : Bytes
  numeric : Bool
deriving DecidableEq

/-- Field dictionary (`struct AbcdFields`): a map keyed by the byte string
`field.name`, so lookup by a path returns a field whose name is that path. -/
abbrev AbcdFields := List AbcdField

/-- Dictionary lookup (`AbcdFields::value_of`). -/
def valueOf (fields : AbcdFields) (path : Bytes) : Option AbcdField :=
  fields.find? (fun f => decide (f.name = path))

/-- ABCD schema version (`enum AbcdVersion`). -/
inductive AbcdVersion where
  | unknown
  | version206
  | version210
deriving DecidableEq

/-- Schema location URI selecting ABCD 2.06. -/
def urlVersion206 : Bytes := bytes "http://www.tdwg.org/schemas/abcd/2.06"

/-- Schema location URI selecting ABCD 2.1. -/
def urlVersion210 : Bytes := bytes "http://www.tdwg.org/schemas/abcd/2.1"

/-- Attribute scan of the `/DataSets` start tag (`abcd_parser.rs` lines
63–75): the first attribute value equal to one of the two schema URIs sets
the version and stops the scan; otherwise the version is left unchanged. -/
def scanVersion (attrs : List Bytes) (v : AbcdVersion) : AbcdVersion :=
  match attrs with
  | [] => v
  | a :: rest =>
    if a = urlVersion206 then AbcdVersion.version206
    else if a = urlVersion210 then AbcdVersion.version210
    else scanVersion rest v

/-- Namespace stripping (`AbcdParser::strip_tag`): when the tag contains a
colon, skip up to and including the first colon; otherwise keep the tag. -/
def stripTag (tag : Bytes) : Bytes :=
  let hasColon := tag.any (fun b => decide (b = ':'))
  (tag.dropWhile (fun b => hasColon && decide (b ≠ ':'))).drop
    (if hasColon then 1 else 0)

/-- Events delivered by the XML reader (`quick_xml::events::Event`), the
input alphabet of the parser loop.  `readErr` stands for `Err(_)` returned
by `read_event` on malformed XML; end of the list stands for `Eof`.  Events
the loop ignores (comments, CDATA, empty elements, …) are omitted: the
source handles them with a no-op arm. -/
inductive XmlEvent where
  | start (tag : Bytes) (attrs : List Bytes)
  | endTag (tag : Bytes)
  | text (t : Bytes)
  | readErr
deriving DecidableEq

/-- Abnormal terminations of the parser loop: `panic!` on a reader error
(`abcd_parser.rs` line 124) and the unsigned underflow of the path
truncation on an unbalanced end tag (line 96). -/
inductive Panic where
  | readError
  | underflow
deriving DecidableEq

/-- State of the parser loop: the persistent scratch fields of
`struct AbcdParser` (`xml_tag_path`, `values`, `abcd_version`; the raw
`xml_buffer` holds reader internals and carries no information) together
with the local variables of `parse` (`dataset_data`, `units`). -/
structure ParserState where
  xmlTagPath : Bytes
  values : ValueMap
  abcdVersion : AbcdVersion
  datasetData : Option ValueMap
  units : List ValueMap
deriving DecidableEq

/-- Persistent scratch state of `struct AbcdParser` across `parse` calls. -/
structure ParserScratch where
  xmlTagPath : Bytes
  values : ValueMap
  abcdVersion : AbcdVersion
deriving DecidableEq

/-- Context threaded through parsing: the field dictionary, the configured
landing-page field (`AbcdSettings::landing_page_field`) and the external
float-literal routine `str::parse::<f64>` as an abstract parameter. -/
structure ParseCtx where
  fields : AbcdFields
  landingPageField : Bytes
  parseNum : Bytes → Option Rat

/-- Path reached by a start tag: push `/` and the stripped tag
(`abcd_parser.rs` lines 56–57). -/
def pushTag (path : Bytes) (tag : Bytes) : Bytes :=
  path ++ '/' :: stripTag tag

/-- Path of the dataset-metadata snapshot trigger. -/
def unitsPath : Bytes := bytes "/DataSets/DataSet/Units"

/-- Per-event state transition of `AbcdParser::parse` (the `match` on
`read_event`, `abcd_parser.rs` lines 54–130).  `Except.error` marks the
abnormal terminations: `panic!` on a reader error, and the underflow of
`len - stripped_len - 1` (a `usize` subtraction) on an end tag longer than
the current path. -/
def step (ctx : ParseCtx) (s : ParserState) : XmlEvent → Except Panic ParserState
  | XmlEvent.start tag attrs =>
    let p := pushTag s.xmlTagPath tag
    if p = bytes "/DataSets" then
      Except.ok { s with xmlTagPath := p, abcdVersion := scanVersion attrs s.abcdVersion }
    else if p = unitsPath then
      Except.ok { s with xmlTagPath := p, datasetData := some s.values, values := [] }
    else
      Except.ok { s with xmlTagPath := p }
  | XmlEvent.endTag tag =>
    let t := stripTag tag
    if t.length + 1 ≤ s.xmlTagPath.length then
      let p := s.xmlTagPath.take (s.xmlTagPath.length - t.length - 1)
      if p = unitsPath ∧ t = bytes "Unit" then
        Except.ok { s with xmlTagPath := p, units := s.units ++ [s.values], values := [] }
      else
        Except.ok { s with xmlTagPath := p }
    else
      Except.error Panic.underflow
  | XmlEvent.text t =>
    match valueOf ctx.fields s.xmlTagPath with
    | some f =>
      if f.numeric then
        match ctx.parseNum t with
        | some q => Except.ok { s with values := minsert s.values f.name (VatType.numeric q) }
        | none => Except.ok s
      else
        Except.ok { s with values := minsert s.values f.name (VatType.textual t) }
    | none => Except.ok s
  | XmlEvent.readErr => Except.error Panic.readError

/-- Event loop of `parse`: fold `step` over the event stream, stopping on
an abnormal termination. -/
def runEvents (ctx : ParseCtx) (s : ParserState) : List XmlEvent → Except Panic ParserState
  | [] => Except.ok s
  | e :: es =>
    match step ctx s e with
    | Except.ok s2 => runEvents ctx s2 es
    | Except.error p => Except.error p

/-- Result record of a successful parse (`struct AbcdResult`). -/
structure AbcdResult where
  datasetId : Bytes
  datasetPath : Bytes
  landingPage : Bytes
  providerName : Bytes
  dataset : ValueMap
  units : List ValueMap
deriving DecidableEq

/-- Outcome of a `parse` call: a result, the `AbcdContainsNoDatasetMetadata`
error returned to the caller, or a process-terminating panic. -/
inductive ParseOutcome where
  | ok (r : AbcdResult)
  | noDatasetMetadata
  | panic (p : Panic)
deriving DecidableEq

/-- Landing-page resolution (`abcd_parser.rs` lines 138–144): use the
configured landing-page field of the dataset map when it holds a textual
value, the caller's proposal otherwise. -/
def resolveLandingPage (ctx : ParseCtx) (dataset : ValueMap) (proposal : Bytes) : Bytes :=
  match alistLookup dataset ctx.landingPageField with
  | some (VatType.textual v) => v
  | _ => proposal

/-- Embedding of `AbcdParser::parse`: run the loop from the parser's current
scratch state, clear the scratch (`self.clear()`, which resets the path and
value buffers but not `abcd_version`), then assemble the `AbcdResult` or
fail with `NoDatasetMetadata` when no dataset map was captured.  On a panic
the process dies; the returned scratch is never observed in that case. -/
def parse (ctx : ParseCtx) (scratch : ParserScratch)
    (datasetId datasetPath landingPageProposal providerName : Bytes)
    (events : List XmlEvent) : ParseOutcome × ParserScratch :=
  let init : ParserState :=
    { xmlTagPath := scratch.xmlTagPath, values := scratch.values,
      abcdVersion := scratch.abcdVersion, datasetData := none, units := [] }
  match runEvents ctx init events with
  | Except.error p => (ParseOutcome.panic p, scratch)
  | Except.ok s =>
    let cleared : ParserScratch := { xmlTagPath := [], values := [], abcdVersion := s.abcdVersion }
    match s.datasetData with
    | some datasetData =>
      (ParseOutcome.ok
        { datasetId := datasetId, datasetPath := datasetPath,
          landingPage := resolveLandingPage ctx datasetData landingPageProposal,
          providerName := providerName, dataset := datasetData, units := s.units },
       cleared)
    | none => (ParseOutcome.noDatasetMetadata, cleared)

/-- Surrogate-key registry (`src/storage/surrogate_key.rs`,
`struct SurrogateKey`): a map from external dataset id to assigned key and
the next key to hand out. -/
structure SurrogateKey where
  idToKey : List (Bytes × Nat)
  nextKey : Nat
deriving DecidableEq

/-- Answer of the registry (`enum SurrogateKeyType`). -/
inductive SurrogateKeyType where
  | New (key : Nat)
  | Existing (key : Nat)
deriving DecidableEq

/-- Fresh registry (`SurrogateKey::new`): empty map, counter at 1. -/
def SurrogateKey.new : SurrogateKey :=
  { idToKey := [], nextKey := 1 }

/-- Embedding of `SurrogateKey::for_id`: an occupied entry yields
`Existing` with the stored key and leaves the registry unchanged; a vacant
entry stores and returns the counter and increments it. -/
def SurrogateKey.forId (sk : SurrogateKey) (id : Bytes) : SurrogateKeyType × SurrogateKey :=
  match alistLookup sk.idToKey id with
  | some k => (SurrogateKeyType.Existing k, sk)
  | none =>
    (SurrogateKeyType.New sk.nextKey,
     { idToKey := (id, sk.nextKey) :: sk.idToKey, nextKey := sk.nextKey + 1 })

/-- Observable state of the database sink (`struct DatabaseSink`): the
registry plus the rows streamed so far into the temporary dataset and unit
tables.  A dataset row is recorded with its surrogate key and source
record; a unit row with its surrogate key and unit map. -/
structure SinkState where
  sk : SurrogateKey
  datasetRows : List (Nat × AbcdResult)
  unitRows : List (Nat × ValueMap)
deriving DecidableEq

/-- Sink as constructed by `DatabaseSink::new`: default registry, nothing
emitted. -/
def initialSink : SinkState :=
  { sk := SurrogateKey.new, datasetRows := [], unitRows := [] }

/-- Embedding of `DatabaseSink::insert_dataset` (`database_sink.rs` lines
561–579): on `New(k)` emit the dataset-metadata row and all unit rows with
key `k`; on `Existing(k)` emit only the unit rows. -/
def insertDataset (s : SinkState) (r : AbcdResult) : SinkState :=
  match s.sk.forId r.datasetId with
  | (SurrogateKeyType.New k, sk2) =>
    { sk := sk2,
      datasetRows := s.datasetRows ++ [(k, r)],
      unitRows := s.unitRows ++ r.units.map (fun u => (k, u)) }
  | (SurrogateKeyType.Existing k, sk2) =>
    { sk := sk2,
      datasetRows := s.datasetRows,
      unitRows := s.unitRows ++ r.units.map (fun u => (k, u)) }

/-- Rendering of a value by the bulk loader (`impl fmt::Display for
VatType`); the decimal rendering of `f64` is an abstract parameter. -/
def render (showNum : Rat → Bytes) : VatType → Bytes
  | VatType.textual s => s
  | VatType.numeric q => showNum q

/-- Longitude path hard-coded in `DatabaseSink::insert_units`. -/
def lonPath : Bytes :=
  bytes "/DataSets/DataSet/Units/Unit/Gathering/SiteCoordinateSets/SiteCoordinates/CoordinatesLatLong/LongitudeDecimal"

/-- Latitude path hard-coded in `DatabaseSink::insert_units`. -/
def latPath : Bytes :=
  bytes "/DataSets/DataSet/Units/Unit/Gathering/SiteCoordinateSets/SiteCoordinates/CoordinatesLatLong/LatitudeDecimal"

/-- Coordinate capture of the unit-field loop in `insert_units`
(`database_sink.rs` lines 659–673): walking the unit fields in order, a
present value at the longitude (resp. latitude) path is remembered. -/
def coordsOf (unitFields : List Bytes) (unit : ValueMap)
    (acc : Option VatType × Option VatType) : Option VatType × Option VatType :=
  match unitFields with
  | [] => acc
  | name :: rest =>
    let acc2 :=
      match alistLookup unit name with
      | some v =>
        if name = lonPath then (some v, acc.2)
        else if name = latPath then (acc.1, some v)
        else acc
      | none => acc
    coordsOf rest unit acc2

/-- Trailing `geom` field of a unit row (`database_sink.rs` lines
675–679): a well-known-text point iff both coordinates were captured, the
empty field otherwise. -/
def geomOf (showNum : Rat → Bytes) (unitFields : List Bytes) (unit : ValueMap) : Bytes :=
  match coordsOf unitFields unit (none, none) with
  | (some lonV, some latV) =>
    bytes "POINT(" ++ render showNum lonV ++ [' '] ++ render showNum latV ++ [')']
  | _ => []

/-- Serialized unit row (`database_sink.rs` lines 656–681): the surrogate
key first, one field per unit-level descriptor (rendered value, or empty
when absent), then the trailing `geom` field. -/
def unitRow (showNum : Rat → Bytes) (unitFields : List Bytes) (key : Nat)
    (unit : ValueMap) : List Bytes :=
  (toString key).toList ::
    unitFields.map (fun name =>
      match alistLookup unit name with
      | some v => render showNum v
      | none => []) ++
    [geomOf showNum unitFields unit]

/-- Key carried by a registry answer. -/
def SurrogateKeyType.key : SurrogateKeyType → Nat
  | SurrogateKeyType.New k => k
  | SurrogateKeyType.Existing k => k

/-- C4: on a fresh registry the counter starts at 1; `for_id` on an unseen
id returns `New` with the current counter, stores it and increments the
counter by one; `for_id` on a seen id returns `Existing` with the stored
key and leaves the registry unchanged; the key just handed out is the one
stored, so an immediate second query yields `Existing` with the same key. -/
theorem abcd_c4 :
    SurrogateKey.new.nextKey = 1 ∧
    (∀ (sk : SurrogateKey) (id : Bytes), alistLookup sk.idToKey id = none →
      sk.forId id =
        (SurrogateKeyType.New sk.nextKey,
         { idToKey := (id, sk.nextKey) :: sk.idToKey, nextKey := sk.nextKey + 1 })) ∧
    (∀ (sk : SurrogateKey) (id : Bytes) (k : Nat), alistLookup sk.idToKey id = some k →
      sk.forId id = (SurrogateKeyType.Existing k, sk)) ∧
    (∀ (sk : SurrogateKey) (id : Bytes),
      ((sk.forId id).2).forId id =
        (SurrogateKeyType.Existing ((sk.forId id).1.key), (sk.forId id).2)) := by
  refine ⟨rfl, ?_, ?_, ?_⟩
  · intro sk id h
    simp [SurrogateKey.forId, h]
  · intro sk id k h
    simp [SurrogateKey.forId, h]
  · intro sk id
    cases h : alistLookup sk.idToKey id with
    | some k =>
      simp [SurrogateKey.forId, h, SurrogateKeyType.key]
    | none =>
      simp [SurrogateKey.forId, h, alistLookup, SurrogateKeyType.key]

/-- Witness for C4 at a fresh registry and the id `"foo"`. -/
theorem abcd_c4_witness :
    SurrogateKey.new.forId (bytes "foo") =
      (SurrogateKeyType.New 1,
       { idToKey := [(bytes "foo", 1)], nextKey := 2 }) :=
  abcd_c4.2.1 SurrogateKey.new (bytes "foo") rfl

/-- Unfolding equation of `insertDataset` in the `New` case. -/
theorem insertDataset_new (s : SinkState) (r : AbcdResult) (k : Nat) (sk2 : SurrogateKey)
    (h : s.sk.forId r.datasetId = (SurrogateKeyType.New k, sk2)) :
    insertDataset s r =
      { sk := sk2, datasetRows := s.datasetRows ++ [(k, r)],
        unitRows := s.unitRows ++ r.units.map (fun u => (k, u)) } := by
  simp [insertDataset, h]

/-- Unfolding equation of `insertDataset` in the `Existing` case. -/
theorem insertDataset_existing (s : SinkState) (r : AbcdResult) (k : Nat) (sk2 : SurrogateKey)
    (h : s.sk.forId r.datasetId = (SurrogateKeyType.Existing k, sk2)) :
    insertDataset s r =
      { sk := sk2, datasetRows := s.datasetRows,
        unitRows := s.unitRows ++ r.units.map (fun u => (k, u)) } := by
  simp [insertDataset, h]

/-- C1: when the same external dataset id is inserted twice starting from a
registry that has not seen it, the first call emits exactly one
dataset-metadata row (carrying the fresh surrogate key) and the second call
emits none; the unit rows of both calls are all emitted and each carries
the surrogate key assigned on the first call. -/
theorem abcd_c1 (s0 : SinkState) (r1 r2 : AbcdResult)
    (hid : r2.datasetId = r1.datasetId)
    (hnew : alistLookup s0.sk.idToKey r1.datasetId = none) :
    (insertDataset s0 r1).datasetRows = s0.datasetRows ++ [(s0.sk.nextKey, r1)] ∧
    (insertDataset (insertDataset s0 r1) r2).datasetRows = (insertDataset s0 r1).datasetRows ∧
    (insertDataset (insertDataset s0 r1) r2).unitRows =
      s0.unitRows ++ r1.units.map (fun u => (s0.sk.nextKey, u))
        ++ r2.units.map (fun u => (s0.sk.nextKey, u)) := by
  have h1 : s0.sk.forId r1.datasetId =
      (SurrogateKeyType.New s0.sk.nextKey,
       { idToKey := (r1.datasetId, s0.sk.nextKey) :: s0.sk.idToKey,
         nextKey := s0.sk.nextKey + 1 }) := by
    simp [SurrogateKey.forId, hnew]
  have hs1 : insertDataset s0 r1 =
      { sk := { idToKey := (r1.datasetId, s0.sk.nextKey) :: s0.sk.idToKey,
                nextKey := s0.sk.nextKey + 1 },
        datasetRows := s0.datasetRows ++ [(s0.sk.nextKey, r1)],
        unitRows := s0.unitRows ++ r1.units.map (fun u => (s0.sk.nextKey, u)) } :=
    insertDataset_new s0 r1 s0.sk.nextKey _ h1
  have h2 : (insertDataset s0 r1).sk.forId r2.datasetId =
      (SurrogateKeyType.Existing s0.sk.nextKey, (insertDataset s0 r1).sk) := by
    rw [hs1]
    simp [SurrogateKey.forId, alistLookup, hid]
  have hs2 := insertDataset_existing (insertDataset s0 r1) r2 s0.sk.nextKey _ h2
  refine ⟨by rw [hs1], by rw [hs2], ?_⟩
  rw [hs2, hs1]

/-- Witness for C1: a fresh sink, two results sharing the id `"d"` with one
unit map each. -/
theorem abcd_c1_witness :
    (insertDataset initialSink
        { datasetId := bytes "d", datasetPath := [], landingPage := [],
          providerName := [], dataset := [], units := [[]] }).datasetRows =
      initialSink.datasetRows ++
        [(initialSink.sk.nextKey,
          { datasetId := bytes "d", datasetPath := [], landingPage := [],
            providerName := [], dataset := [], units := [[]] })] ∧
    (insertDataset
        (insertDataset initialSink
          { datasetId := bytes "d", datasetPath := [], landingPage := [],
            providerName := [], dataset := [], units := [[]] })
        { datasetId := bytes "d", datasetPath := [], landingPage := [],
          providerName := [], dataset := [], units := [[(bytes "u", VatType.textual [])]] }).datasetRows =
      (insertDataset initialSink
        { datasetId := bytes "d", datasetPath := [], landingPage := [],
          providerName := [], dataset := [], units := [[]] }).datasetRows ∧
    (insertDataset
        (insertDataset initialSink
          { datasetId := bytes "d", datasetPath := [], landingPage := [],
            providerName := [], dataset := [], units := [[]] })
        { datasetId := bytes "d", datasetPath := [], landingPage := [],
          providerName := [], dataset := [], units := [[(bytes "u", VatType.textual [])]] }).unitRows =
      initialSink.unitRows ++
        [[]].map (fun u => (initialSink.sk.nextKey, u)) ++
        [[(bytes "u", VatType.textual [])]].map (fun u => (initialSink.sk.nextKey, u)) :=
  abcd_c1 initialSink
    { datasetId := bytes "d", datasetPath := [], landingPage := [],
      providerName := [], dataset := [], units := [[]] }
    { datasetId := bytes "d", datasetPath := [], landingPage := [],
      providerName := [], dataset := [], units := [[(bytes "u", VatType.textual [])]] }
    rfl rfl

/-- C2 (code evaluation): on a reader error — `quick_xml` returns `Err` for
malformed XML such as a mismatched closing tag — the loop arm at
`abcd_parser.rs` line 124 panics: `parse` terminates the process instead of
returning an error value to its caller, so the per-member skip in
`process_datasets` (`main.rs` lines 244–248) is never reached. -/
theorem abcd_c2_parse_panics_on_reader_error :
    (∀ (ctx : ParseCtx) (s : ParserState) (evs : List XmlEvent),
      runEvents ctx s (XmlEvent.readErr :: evs) = Except.error Panic.readError) ∧
    (∀ (ctx : ParseCtx) (scratch : ParserScratch) (did dpath lp prov : Bytes)
        (evs : List XmlEvent),
      parse ctx scratch did dpath lp prov (XmlEvent.readErr :: evs) =
        (ParseOutcome.panic Panic.readError, scratch)) :=
  ⟨fun _ _ _ => rfl, fun _ _ _ _ _ _ _ => rfl⟩

/-- C6: on a text event whose path matches a field descriptor, a numeric
descriptor stores nothing when the text fails the float parse (the state,
hence the value map, is unchanged and no error arises), stores the parsed
number otherwise; a non-numeric descriptor stores the text as-is; and an
insertion for a path overwrites any earlier value at that path. -/
theorem abcd_c6 (ctx : ParseCtx) (s : ParserState) (t : Bytes) (f : AbcdField)
    (h : valueOf ctx.fields s.xmlTagPath = some f) :
    (f.numeric = true → ctx.parseNum t = none →
      step ctx s (XmlEvent.text t) = Except.ok s) ∧
    (∀ q : Rat, f.numeric = true → ctx.parseNum t = some q →
      step ctx s (XmlEvent.text t) =
        Except.ok { s with values := minsert s.values f.name (VatType.numeric q) }) ∧
    (f.numeric = false →
      step ctx s (XmlEvent.text t) =
        Except.ok { s with values := minsert s.values f.name (VatType.textual t) }) ∧
    (∀ (m : ValueMap) (k : Bytes) (v : VatType), alistLookup (minsert m k v) k = some v) := by
  refine ⟨?_, ?_, ?_, ?_⟩
  · intro hnum hparse
    simp [step, h, hnum, hparse]
  · intro q hnum hparse
    simp [step, h, hnum, hparse]
  · intro hnum
    simp [step, h, hnum]
  · intro m k v
    simp [minsert, alistLookup]

/-- Witness for C6: a dictionary with the single numeric field `/a`, the
parser positioned at `/a`, and a float routine rejecting the text. -/
theorem abcd_c6_witness :
    step { fields := [{ name := bytes "/a", numeric := true }],
           landingPageField := [], parseNum := fun _ => none }
        { xmlTagPath := bytes "/a", values := [], abcdVersion := AbcdVersion.unknown,
          datasetData := none, units := [] }
        (XmlEvent.text (bytes "3x")) =
      Except.ok
        { xmlTagPath := bytes "/a", values := [], abcdVersion := AbcdVersion.unknown,
          datasetData := none, units := [] } :=
  (abcd_c6
    { fields := [{ name := bytes "/a", numeric := true }],
      landingPageField := [], parseNum := fun _ => none }
    { xmlTagPath := bytes "/a", values := [], abcdVersion := AbcdVersion.unknown,
      datasetData := none, units := [] }
    (bytes "3x") { name := bytes "/a", numeric := true } (by decide)).1 rfl rfl

/-- C7: whenever `parse` succeeds, the landing page of the result is the
textual value of the configured landing-page field in the captured dataset
map when one exists, and the caller's proposed landing page otherwise
(field absent or holding a numeric value). -/
theorem abcd_c7 (ctx : ParseCtx) (scratch : ParserScratch)
    (did dpath lp prov : Bytes) (evs : List XmlEvent) (r : AbcdResult)
    (h : (parse ctx scratch did dpath lp prov evs).1 = ParseOutcome.ok r) :
    r.landingPage =
      match alistLookup r.dataset ctx.landingPageField with
      | some (VatType.textual v) => v
      | _ => lp := by
  simp only [parse] at h
  cases hrun : runEvents ctx
      { xmlTagPath := scratch.xmlTagPath, values := scratch.values,
        abcdVersion := scratch.abcdVersion, datasetData := none, units := [] } evs with
  | error p => rw [hrun] at h; simp at h
  | ok s =>
    rw [hrun] at h
    cases hd : s.datasetData with
    | none => simp [hd] at h
    | some d =>
      simp [hd] at h
      rw [← h]
      simp [resolveLandingPage]

/-- Context for the C7 witness run. -/
def c7ctx : ParseCtx :=
  { fields := [], landingPageField := bytes "/lp", parseNum := fun _ => none }

/-- Event stream for the C7 witness run: a document opening
`/DataSets/DataSet/Units`. -/
def c7events : List XmlEvent :=
  [XmlEvent.start (bytes "DataSets") [], XmlEvent.start (bytes "DataSet") [],
   XmlEvent.start (bytes "Units") []]

/-- Result of the C7 witness run. -/
def c7result : AbcdResult :=
  { datasetId := bytes "id", datasetPath := bytes "p",
    landingPage := bytes "proposal", providerName := bytes "pr",
    dataset := [], units := [] }

/-- Witness for C7: the witness run succeeds with an empty dataset map, so
the landing page falls back to the proposal. -/
theorem abcd_c7_witness :
    (parse c7ctx { xmlTagPath := [], values := [], abcdVersion := AbcdVersion.unknown }
        (bytes "id") (bytes "p") (bytes "proposal") (bytes "pr") c7events).1 =
      ParseOutcome.ok c7result ∧
    c7result.landingPage =
      match alistLookup c7result.dataset c7ctx.landingPageField with
      | some (VatType.textual v) => v
      | _ => bytes "proposal" :=
  ⟨by decide,
   abcd_c7 c7ctx { xmlTagPath := [], values := [], abcdVersion := AbcdVersion.unknown }
     (bytes "id") (bytes "p") (bytes "proposal") (bytes "pr") c7events c7result (by decide)⟩

/-- Longitude and latitude paths are distinct byte strings. -/
theorem lonPath_ne_latPath : lonPath ≠ latPath := by decide

/-- Characterization of the longitude capture of the unit-field loop:
walking the fields leaves the accumulator untouched unless the longitude
path is a unit field with a present value. -/
theorem coordsOf_fst (u : ValueMap) :
    ∀ (uf : List Bytes) (acc : Option VatType × Option VatType),
      (coordsOf uf u acc).1 =
        if lonPath ∈ uf ∧ (alistLookup u lonPath).isSome = true
        then alistLookup u lonPath else acc.1 := by
  intro uf
  induction uf with
  | nil => intro acc; simp [coordsOf]
  | cons name rest ih =>
    intro acc
    rw [coordsOf, ih]
    by_cases hmem : lonPath ∈ rest ∧ (alistLookup u lonPath).isSome = true
    · rw [if_pos hmem, if_pos ⟨List.mem_cons_of_mem _ hmem.1, hmem.2⟩]
    · rw [if_neg hmem]
      by_cases hname : name = lonPath
      · rw [hname]
        cases hlk : alistLookup u lonPath with
        | some v =>
          rw [if_pos ⟨List.mem_cons_self _ _, rfl⟩]
          simp
        | none =>
          rw [if_neg (fun hc => by simp at hc)]
      · have hnot : ¬(lonPath ∈ name :: rest ∧ (alistLookup u lonPath).isSome = true) := by
          rintro ⟨hm, hs⟩
          cases List.mem_cons.mp hm with
          | inl h => exact hname h.symm
          | inr h => exact hmem ⟨h, hs⟩
        rw [if_neg hnot]
        cases hlk : alistLookup u name with
        | some v =>
          by_cases hlat : name = latPath
          · rw [hlat]
            simp [Ne.symm lonPath_ne_latPath]
          · simp [hname, hlat]
        | none => simp

/-- Characterization of the latitude capture of the unit-field loop. -/
theorem coordsOf_snd (u : ValueMap) :
    ∀ (uf : List Bytes) (acc : Option VatType × Option VatType),
      (coordsOf uf u acc).2 =
        if latPath ∈ uf ∧ (alistLookup u latPath).isSome = true
        then alistLookup u latPath else acc.2 := by
  intro uf
  induction uf with
  | nil => intro acc; simp [coordsOf]
  | cons name rest ih =>
    intro acc
    rw [coordsOf, ih]
    by_cases hmem : latPath ∈ rest ∧ (alistLookup u latPath).isSome = true
    · rw [if_pos hmem, if_pos ⟨List.mem_cons_of_mem _ hmem.1, hmem.2⟩]
    · rw [if_neg hmem]
      by_cases hname : name = latPath
      · rw [hname]
        cases hlk : alistLookup u latPath with
        | some v =>
          rw [if_pos ⟨List.mem_cons_self _ _, rfl⟩]
          simp [Ne.symm lonPath_ne_latPath]
        | none =>
          rw [if_neg (fun hc => by simp at hc)]
      · have hnot : ¬(latPath ∈ name :: rest ∧ (alistLookup u latPath).isSome = true) := by
          rintro ⟨hm, hs⟩
          cases List.mem_cons.mp hm with
          | inl h => exact hname h.symm
          | inr h => exact hmem ⟨h, hs⟩
        rw [if_neg hnot]
        cases hlk : alistLookup u name with
        | some v =>
          by_cases hlon : name = lonPath
          · rw [hlon]
            simp
          · simp [hname, hlon]
        | none => simp

/-- C5 (amended): the trailing `geom` field of an emitted unit row is the
well-known-text point built from the rendered stored values exactly when
both coordinate paths are among the configured unit-level fields and carry
a value (of either kind) in the unit map; otherwise it is empty. -/
theorem abcd_c5_amended (showNum : Rat → Bytes) (uf : List Bytes) (key : Nat) (u : ValueMap) :
    (unitRow showNum uf key u).getLast? = some (geomOf showNum uf u) ∧
    (geomOf showNum uf u ≠ [] ↔
      (lonPath ∈ uf ∧ (alistLookup u lonPath).isSome = true) ∧
      (latPath ∈ uf ∧ (alistLookup u latPath).isSome = true)) ∧
    (∀ lv tv : VatType, lonPath ∈ uf → latPath ∈ uf →
      alistLookup u lonPath = some lv → alistLookup u latPath = some tv →
      geomOf showNum uf u =
        bytes "POINT(" ++ render showNum lv ++ [' '] ++ render showNum tv ++ [')']) := by
  have hpair : coordsOf uf u (none, none) =
      ((if lonPath ∈ uf ∧ (alistLookup u lonPath).isSome = true
        then alistLookup u lonPath else none),
       (if latPath ∈ uf ∧ (alistLookup u latPath).isSome = true
        then alistLookup u latPath else none)) :=
    Prod.ext (coordsOf_fst u uf (none, none)) (coordsOf_snd u uf (none, none))
  refine ⟨?_, ?_, ?_⟩
  · rw [unitRow, List.getLast?_concat]
  · constructor
    · intro hne
      by_cases h1 : lonPath ∈ uf ∧ (alistLookup u lonPath).isSome = true
      · by_cases h2 : latPath ∈ uf ∧ (alistLookup u latPath).isSome = true
        · exact ⟨h1, h2⟩
        · exfalso
          apply hne
          obtain ⟨lv, hlv⟩ := Option.isSome_iff_exists.mp h1.2
          rw [geomOf, hpair, if_pos h1, if_neg h2, hlv]
      · exfalso
        apply hne
        rw [geomOf, hpair, if_neg h1]
    · rintro ⟨h1, h2⟩
      obtain ⟨lv, hlv⟩ := Option.isSome_iff_exists.mp h1.2
      obtain ⟨tv, htv⟩ := Option.isSome_iff_exists.mp h2.2
      rw [geomOf, hpair, if_pos h1, if_pos h2, hlv, htv]
      simp [bytes]
  · intro lv tv hm1 hm2 hlv htv
    rw [geomOf, hpair, if_pos ⟨hm1, by rw [hlv]; rfl⟩, if_pos ⟨hm2, by rw [htv]; rfl⟩, hlv, htv]

/-- Witness for C5 (amended): a unit map holding numeric values at both
coordinate paths, both paths configured as unit fields. -/
theorem abcd_c5_witness :
    geomOf (fun _ => bytes "1") [lonPath, latPath]
        [(lonPath, VatType.numeric 1), (latPath, VatType.numeric 2)] =
      bytes "POINT(" ++ render (fun _ => bytes "1") (VatType.numeric 1) ++ [' '] ++
        render (fun _ => bytes "1") (VatType.numeric 2) ++ [')'] :=
  (abcd_c5_amended (fun _ => bytes "1") [lonPath, latPath] 1
      [(lonPath, VatType.numeric 1), (latPath, VatType.numeric 2)]).2.2
    (VatType.numeric 1) (VatType.numeric 2)
    (by decide) (by decide) (by decide) (by decide)

/-- C5 (counterexample to the claim as stated): with both coordinate paths
configured as unit fields and a unit map carrying *textual* values at both
paths — neither maps to a numeric value — the emitted `geom` field is not
empty: `insert_units` tests only presence, not numericity. -/
theorem abcd_c5_counterexample :
    alistLookup [(lonPath, VatType.textual (bytes "a")),
                 (latPath, VatType.textual (bytes "b"))] lonPath =
      some (VatType.textual (bytes "a")) ∧
    alistLookup [(lonPath, VatType.textual (bytes "a")),
                 (latPath, VatType.textual (bytes "b"))] latPath =
      some (VatType.textual (bytes "b")) ∧
    geomOf (fun _ => []) [lonPath, latPath]
        [(lonPath, VatType.textual (bytes "a")),
         (latPath, VatType.textual (bytes "b"))] ≠ [] := by
  refine ⟨by decide, by decide, ?_⟩
  intro h
  exact absurd h (by decide)

/-- Test used by `strip_tag`: does the tag contain a colon. -/
def hasColonB (t : Bytes) : Bool := t.any (fun b => decide (b = ':'))

/-- Specification-side reading of namespace stripping: the portion of the
tag after its first colon. -/
def afterColon : Bytes → Bytes
  | [] => []
  | b :: rest => if b = ':' then rest else afterColon rest

/-- Dropping with an always-false predicate keeps the list. -/
theorem dropWhile_false_eq (l : Bytes) : l.dropWhile (fun _ => false) = l := by
  cases l <;> simp [List.dropWhile]

/-- Auxiliary computation for tags that do contain a colon. -/
theorem strip_aux (t : Bytes) (h : t.any (fun b => decide (b = ':')) = true) :
    (t.dropWhile (fun b => decide (b ≠ ':'))).drop 1 = afterColon t := by
  induction t with
  | nil => simp at h
  | cons c rest ih =>
    rw [List.dropWhile_cons]
    by_cases hc : c = ':'
    · rw [if_neg (by simp [hc])]
      simp [afterColon, hc]
    · rw [if_pos (by simp [hc])]
      have hr : rest.any (fun b => decide (b = ':')) = true := by
        simp only [List.any_cons, Bool.or_eq_true, decide_eq_true_eq] at h
        rcases h with h | h
        · exact absurd h hc
        · exact h
      rw [ih hr]
      simp [afterColon, hc]

/-- Relation between the source's `strip_tag` and its specification: the
portion after the first colon when the tag contains one, the whole tag
otherwise. -/
theorem stripTag_spec (t : Bytes) :
    stripTag t = if hasColonB t = true then afterColon t else t := by
  by_cases h : hasColonB t = true
  · rw [if_pos h]
    have h2 : t.any (fun b => decide (b = ':')) = true := h
    simp only [stripTag, h2, Bool.true_and, if_true]
    exact strip_aux t h2
  · rw [if_neg h]
    have h2 : t.any (fun b => decide (b = ':')) = false := by
      have hx := Bool.eq_false_iff.mpr h
      rwa [hasColonB] at hx
    simp only [stripTag, h2, Bool.false_and, if_false, List.drop_zero]
    exact dropWhile_false_eq t

/-- Colon-free tags strip to themselves. -/
theorem stripTag_plain (t : Bytes) (ht : hasColonB t = false) : stripTag t = t := by
  rw [stripTag_spec, ht]
  simp

/-- A tag qualified with a namespace (`ns:tag`). -/
def nsTag (ns tag : Bytes) : Bytes := ns ++ ':' :: tag

/-- The tag after the first colon of `ns:tag` for a colon-free namespace. -/
theorem afterColon_nsTag (t : Bytes) :
    ∀ ns : Bytes, hasColonB ns = false → afterColon (nsTag ns t) = t := by
  intro ns
  induction ns with
  | nil => intro h; simp [nsTag, afterColon]
  | cons c rest ih =>
    intro h
    rw [hasColonB, List.any_cons] at h
    have hboth := Bool.or_eq_false_iff.mp h
    have hc : ¬c = ':' := of_decide_eq_false hboth.1
    have hr : hasColonB rest = false := hboth.2
    simp only [nsTag, List.cons_append, afterColon, if_neg hc]
    exact ih hr

/-- Qualifying a colon-free tag and stripping recovers the tag. -/
theorem stripTag_nsTag (ns t : Bytes) (hns : hasColonB ns = false) :
    stripTag (nsTag ns t) = t := by
  have hcol : hasColonB (nsTag ns t) = true := by
    simp [hasColonB, nsTag, List.any_append, List.any_cons]
  rw [stripTag_spec, if_pos hcol]
  exact afterColon_nsTag t ns hns

/-- Namespace qualification of an event: start and end tags get the
namespace, other events are unchanged. -/
def qualifyEvent (ns : Bytes) : XmlEvent → XmlEvent
  | XmlEvent.start t a => XmlEvent.start (nsTag ns t) a
  | XmlEvent.endTag t => XmlEvent.endTag (nsTag ns t)
  | e => e

/-- Check that the tags of an event are colon-free. -/
def plainTagsB : XmlEvent → Bool
  | XmlEvent.start t _ => !hasColonB t
  | XmlEvent.endTag t => !hasColonB t
  | _ => true

/-- The step function cannot see a colon-free namespace qualification. -/
theorem step_qualify (ctx : ParseCtx) (s : ParserState) (ns : Bytes)
    (hns : hasColonB ns = false) :
    ∀ e : XmlEvent, plainTagsB e = true →
      step ctx s (qualifyEvent ns e) = step ctx s e := by
  intro e he
  cases e with
  | start tag attrs =>
    have ht : hasColonB tag = false := by simpa [plainTagsB] using he
    simp only [qualifyEvent, step, pushTag, stripTag_nsTag ns tag hns, stripTag_plain tag ht]
  | endTag tag =>
    have ht : hasColonB tag = false := by simpa [plainTagsB] using he
    simp only [qualifyEvent, step, stripTag_nsTag ns tag hns, stripTag_plain tag ht]
  | text t => rfl
  | readErr => rfl

/-- The event loop cannot see a colon-free namespace qualification. -/
theorem runEvents_qualify (ctx : ParseCtx) (ns : Bytes) (hns : hasColonB ns = false) :
    ∀ (evs : List XmlEvent), (∀ e ∈ evs, plainTagsB e = true) →
      ∀ s : ParserState,
        runEvents ctx s (evs.map (qualifyEvent ns)) = runEvents ctx s evs := by
  intro evs
  induction evs with
  | nil => intro _ s; rfl
  | cons e rest ih =>
    intro hall s
    have he : plainTagsB e = true := hall e (List.mem_cons_self _ _)
    have hrest : ∀ x ∈ rest, plainTagsB x = true :=
      fun x hx => hall x (List.mem_cons_of_mem _ hx)
    rw [List.map_cons, runEvents, runEvents, step_qualify ctx s ns hns e he]
    cases step ctx s e with
    | ok s2 => exact ih hrest s2
    | error p => rfl

/-- C8: `strip_tag` keeps the portion after the first colon when the tag
contains one and the whole tag otherwise; consequently a document whose
start and end tags carry a colon-free namespace qualifier parses exactly
like the same document with the qualifiers removed. -/
theorem abcd_c8 :
    (∀ t : Bytes, stripTag t = if hasColonB t = true then afterColon t else t) ∧
    (∀ (ns : Bytes) (evs : List XmlEvent), hasColonB ns = false →
      (∀ e ∈ evs, plainTagsB e = true) →
      ∀ (ctx : ParseCtx) (scratch : ParserScratch) (did dpath lp prov : Bytes),
        parse ctx scratch did dpath lp prov (evs.map (qualifyEvent ns)) =
          parse ctx scratch did dpath lp prov evs) := by
  refine ⟨stripTag_spec, ?_⟩
  intro ns evs hns hall ctx scratch did dpath lp prov
  simp only [parse]
  rw [runEvents_qualify ctx ns hns evs hall]

/-- Witness for C8: the tag `abcd:Title` strips to `Title`, and a one-event
document qualified with `abcd` parses like its plain form. -/
theorem abcd_c8_witness :
    (stripTag (bytes "abcd:Title") =
      if hasColonB (bytes "abcd:Title") = true then afterColon (bytes "abcd:Title")
      else bytes "abcd:Title") ∧
    parse c7ctx { xmlTagPath := [], values := [], abcdVersion := AbcdVersion.unknown }
        (bytes "i") (bytes "p") (bytes "l") (bytes "n")
        ([XmlEvent.start (bytes "Title") []].map (qualifyEvent (bytes "abcd"))) =
      parse c7ctx { xmlTagPath := [], values := [], abcdVersion := AbcdVersion.unknown }
        (bytes "i") (bytes "p") (bytes "l") (bytes "n")
        [XmlEvent.start (bytes "Title") []] :=
  ⟨abcd_c8.1 (bytes "abcd:Title"),
   abcd_c8.2 (bytes "abcd") [XmlEvent.start (bytes "Title") []] (by decide) (by decide)
     c7ctx { xmlTagPath := [], values := [], abcdVersion := AbcdVersion.unknown }
     (bytes "i") (bytes "p") (bytes "l") (bytes "n")⟩

/-- Well-nested event streams: every start tag is closed by an end tag with
the same name, as `quick_xml` guarantees for the streams it yields without
error (its `check_end_names` option is on by default). -/
inductive WellNested : List XmlEvent → Prop where
  | nil : WellNested []
  | text (t : Bytes) (es : List XmlEvent) : WellNested es →
      WellNested (XmlEvent.text t :: es)
  | elem (tag : Bytes) (attrs : List Bytes) (inner rest : List XmlEvent) :
      WellNested inner → WellNested rest →
      WellNested (XmlEvent.start tag attrs :: (inner ++ XmlEvent.endTag tag :: rest))

/-- Pure path tracking of a single event, mirroring the path manipulation
of the loop (with truncation clamped, which coincides with the loop
whenever no underflow occurs). -/
def trackPath (p : Bytes) : XmlEvent → Bytes
  | XmlEvent.start tag _ => pushTag p tag
  | XmlEvent.endTag tag => p.take (p.length - (stripTag tag).length - 1)
  | _ => p

/-- Does some start event of the stream, processed from path `p`, reach the
path `/DataSets/DataSet/Units`? -/
def visitsUnits (p : Bytes) : List XmlEvent → Bool
  | [] => false
  | e :: es =>
    (match e with
     | XmlEvent.start tag _ => decide (pushTag p tag = unitsPath)
     | _ => false) || visitsUnits (trackPath p e) es

/-- Truncating a pushed path by the pushed-segment length plus one recovers
the original path: the arithmetic of `abcd_parser.rs` lines 96–98. -/
theorem pushTag_take (p w : Bytes) :
    (p ++ '/' :: w).take ((p ++ '/' :: w).length - w.length - 1) = p := by
  have hlen : (p ++ '/' :: w).length - w.length - 1 = p.length := by
    rw [List.length_append, List.length_cons]
    omega
  rw [hlen]
  exact List.take_left p ('/' :: w)

/-- Start events always succeed: the path is extended and the captured
dataset map becomes present exactly when it already was or the new path is
the units path. -/
theorem step_start (ctx : ParseCtx) (s : ParserState) (tag : Bytes) (attrs : List Bytes) :
    ∃ s2, step ctx s (XmlEvent.start tag attrs) = Except.ok s2 ∧
      s2.xmlTagPath = pushTag s.xmlTagPath tag ∧
      s2.datasetData.isSome =
        (s.datasetData.isSome || decide (pushTag s.xmlTagPath tag = unitsPath)) := by
  by_cases h1 : pushTag s.xmlTagPath tag = bytes "/DataSets"
  · refine ⟨{ s with xmlTagPath := pushTag s.xmlTagPath tag, abcdVersion := scanVersion attrs s.abcdVersion }, (by simp only [step]; rw [if_pos h1]), rfl, ?_⟩
    have hne : pushTag s.xmlTagPath tag ≠ unitsPath := by
      rw [h1]
      decide
    simp [hne]
  · by_cases h2 : pushTag s.xmlTagPath tag = unitsPath
    · refine ⟨{ s with xmlTagPath := pushTag s.xmlTagPath tag, datasetData := some s.values, values := [] }, (by simp only [step]; rw [if_neg h1, if_pos h2]), rfl, ?_⟩
      simp [h2]
    · refine ⟨{ s with xmlTagPath := pushTag s.xmlTagPath tag }, (by simp only [step]; rw [if_neg h1, if_neg h2]), rfl, ?_⟩
      simp [h2]

/-- Text events always succeed and touch neither the path nor the captured
dataset map. -/
theorem step_text (ctx : ParseCtx) (s : ParserState) (t : Bytes) :
    ∃ s2, step ctx s (XmlEvent.text t) = Except.ok s2 ∧
      s2.xmlTagPath = s.xmlTagPath ∧ s2.datasetData = s.datasetData := by
  simp only [step]
  cases valueOf ctx.fields s.xmlTagPath with
  | none => exact ⟨s, rfl, rfl, rfl⟩
  | some f =>
    cases hn : f.numeric with
    | true =>
      cases ctx.parseNum t with
      | some q =>
        exact ⟨{ s with values := minsert s.values f.name (VatType.numeric q) }, (by simp [hn]), rfl, rfl⟩
      | none => exact ⟨s, (by simp [hn]), rfl, rfl⟩
    | false =>
      exact ⟨{ s with values := minsert s.values f.name (VatType.textual t) }, (by simp [hn]), rfl, rfl⟩

/-- End events whose stripped tag closes the last pushed segment succeed,
truncate the path back to the part before the matching start, and keep the
captured dataset map. -/
theorem step_endTag (ctx : ParseCtx) (s : ParserState) (tag : Bytes) (p : Bytes)
    (hp : s.xmlTagPath = p ++ '/' :: stripTag tag) :
    ∃ s2, step ctx s (XmlEvent.endTag tag) = Except.ok s2 ∧
      s2.xmlTagPath = p ∧ s2.datasetData = s.datasetData := by
  have hlen : (stripTag tag).length + 1 ≤ s.xmlTagPath.length := by
    rw [hp, List.length_append, List.length_cons]
    omega
  have htake : s.xmlTagPath.take (s.xmlTagPath.length - (stripTag tag).length - 1) = p := by
    rw [hp]
    exact pushTag_take p (stripTag tag)
  simp only [step]
  rw [if_pos hlen, htake]
  by_cases hu : p = unitsPath ∧ stripTag tag = bytes "Unit"
  · exact ⟨{ s with xmlTagPath := p, units := s.units ++ [s.values], values := [] }, (by rw [if_pos hu]), rfl, rfl⟩
  · exact ⟨{ s with xmlTagPath := p }, (by rw [if_neg hu]), rfl, rfl⟩

/-- The loop over a concatenation runs the first part and continues with
the second from the reached state, propagating abnormal terminations. -/
theorem runEvents_append (ctx : ParseCtx) :
    ∀ (xs ys : List XmlEvent) (s : ParserState),
      runEvents ctx s (xs ++ ys) =
        match runEvents ctx s xs with
        | Except.ok s2 => runEvents ctx s2 ys
        | Except.error p => Except.error p := by
  intro xs
  induction xs with
  | nil => intro ys s; rfl
  | cons e rest ih =>
    intro ys s
    rw [List.cons_append]
    simp only [runEvents]
    cases step ctx s e with
    | ok s2 => exact ih ys s2
    | error p => rfl

/-- Closing a just-pushed tag tracks back to the original path. -/
theorem trackPath_close (p tag : Bytes) :
    trackPath (pushTag p tag) (XmlEvent.endTag tag) = p := by
  simp only [trackPath, pushTag]
  exact pushTag_take p (stripTag tag)

/-- Path visiting distributes over appending behind a well-nested stream:
a well-nested stream returns the tracked path to its starting point. -/
theorem visitsUnits_append_wn :
    ∀ {xs : List XmlEvent}, WellNested xs → ∀ (p : Bytes) (ys : List XmlEvent),
      visitsUnits p (xs ++ ys) = (visitsUnits p xs || visitsUnits p ys) := by
  intro xs hb
  induction hb with
  | nil => intro p ys; simp [visitsUnits]
  | text t es hes ih =>
    intro p ys
    simp only [List.cons_append, visitsUnits, trackPath, List.append_eq]
    rw [ih p ys]
    simp [Bool.or_assoc]
  | elem tag attrs inner rest hinner hrest ihinner ihrest =>
    intro p ys
    simp only [List.cons_append, List.append_assoc, visitsUnits, trackPath, List.append_eq]
    rw [ihinner (pushTag p tag) (XmlEvent.endTag tag :: (rest ++ ys)),
        ihinner (pushTag p tag) (XmlEvent.endTag tag :: rest)]
    simp only [visitsUnits, trackPath_close, List.append_eq]
    rw [ihrest p ys]
    simp [Bool.or_assoc]

/-- Main balanced-run lemma: over a well-nested stream the loop never
panics, restores the path it started from, and holds a captured dataset map
exactly when it already held one or some start event reached the units
path. -/
theorem runEvents_wn (ctx : ParseCtx) :
    ∀ {es : List XmlEvent}, WellNested es → ∀ s : ParserState,
      ∃ s2, runEvents ctx s es = Except.ok s2 ∧
        s2.xmlTagPath = s.xmlTagPath ∧
        s2.datasetData.isSome =
          (s.datasetData.isSome || visitsUnits s.xmlTagPath es) := by
  intro es hb
  induction hb with
  | nil => intro s; exact ⟨s, rfl, rfl, by simp [visitsUnits]⟩
  | text t es hes ih =>
    intro s
    obtain ⟨s1, hstep, hpath, hdd⟩ := step_text ctx s t
    obtain ⟨s2, hrun, hp2, hd2⟩ := ih s1
    refine ⟨s2, ?_, by rw [hp2, hpath], ?_⟩
    · simp only [runEvents, hstep]
      exact hrun
    · rw [hd2, hdd, hpath]
      simp only [visitsUnits, trackPath]
      simp
  | elem tag attrs inner rest hinner hrest ihinner ihrest =>
    intro s
    obtain ⟨s1, hstep1, hpath1, hdd1⟩ := step_start ctx s tag attrs
    obtain ⟨s2, hrun2, hpath2, hdd2⟩ := ihinner s1
    have hp2u : s2.xmlTagPath = s.xmlTagPath ++ '/' :: stripTag tag := by
      rw [hpath2, hpath1, pushTag]
    obtain ⟨s3, hstep3, hpath3, hdd3⟩ := step_endTag ctx s2 tag s.xmlTagPath hp2u
    obtain ⟨s4, hrun4, hpath4, hdd4⟩ := ihrest s3
    refine ⟨s4, ?_, by rw [hpath4, hpath3], ?_⟩
    · simp only [runEvents, hstep1]
      rw [runEvents_append ctx inner (XmlEvent.endTag tag :: rest) s1, hrun2]
      simp only [runEvents, hstep3]
      exact hrun4
    · rw [hdd4, hdd3, hpath3, hdd2, hpath1, hdd1]
      simp only [visitsUnits, trackPath, List.append_eq]
      rw [visitsUnits_append_wn hinner (pushTag s.xmlTagPath tag)
          (XmlEvent.endTag tag :: rest)]
      simp only [visitsUnits, trackPath_close, List.append_eq]
      simp [Bool.or_assoc]

/-- Path observed after running the loop: `none` when the loop aborts. -/
def runPath (ctx : ParseCtx) (s : ParserState) (es : List XmlEvent) : Option Bytes :=
  match runEvents ctx s es with
  | Except.ok s2 => some s2.xmlTagPath
  | Except.error _ => none

/-- C10: over well-nested events the end-tag truncation
`len - stripped_len - 1` never underflows and the loop restores the path
that was current before the matching start tag; without well-nesting the
subtraction underflows — an end tag on the empty path aborts the run with
`Panic.underflow` (the process dies) instead of producing an error value. -/
theorem abcd_c10 :
    (∀ (ctx : ParseCtx) (es : List XmlEvent), WellNested es →
      ∀ s : ParserState, runPath ctx s es = some s.xmlTagPath) ∧
    (∀ (ctx : ParseCtx) (s : ParserState), s.xmlTagPath = [] →
      runEvents ctx s [XmlEvent.endTag (bytes "Unit")] =
        Except.error Panic.underflow) ∧
    (∀ (ctx : ParseCtx) (did dpath lp prov : Bytes),
      parse ctx { xmlTagPath := [], values := [], abcdVersion := AbcdVersion.unknown }
          did dpath lp prov [XmlEvent.endTag (bytes "Unit")] =
        (ParseOutcome.panic Panic.underflow,
         { xmlTagPath := [], values := [], abcdVersion := AbcdVersion.unknown })) := by
  refine ⟨?_, ?_, ?_⟩
  · intro ctx es hwn s
    obtain ⟨s2, hrun, hpath, _⟩ := runEvents_wn ctx hwn s
    simp [runPath, hrun, hpath]
  · intro ctx s h
    have hstep : step ctx s (XmlEvent.endTag (bytes "Unit")) =
        Except.error Panic.underflow := by
      simp only [step, h]
      rw [if_neg (by decide)]
    simp only [runEvents, hstep]
  · intro ctx did dpath lp prov
    rfl

/-- Witness for C10 at a well-nested two-event stream and a nonempty
starting path. -/
theorem abcd_c10_witness :
    runPath c7ctx
        { xmlTagPath := bytes "/x", values := [], abcdVersion := AbcdVersion.unknown,
          datasetData := none, units := [] }
        [XmlEvent.start (bytes "a") [], XmlEvent.endTag (bytes "a")] =
      some (bytes "/x") :=
  abcd_c10.1 c7ctx [XmlEvent.start (bytes "a") [], XmlEvent.endTag (bytes "a")]
    (WellNested.elem (bytes "a") [] [] [] WellNested.nil WellNested.nil)
    { xmlTagPath := bytes "/x", values := [], abcdVersion := AbcdVersion.unknown,
      datasetData := none, units := [] }

/-- Dataset map carried by a parse outcome, when there is one. -/
def outcomeDataset : ParseOutcome → Option ValueMap
  | ParseOutcome.ok r => some r.dataset
  | _ => none

/-- C3: over a well-nested stream processed from an empty path, `parse`
fails with `NoDatasetMetadata` exactly when no start event reaches the path
`/DataSets/DataSet/Units`; when some start event does, the parse succeeds
and its result carries a dataset map. -/
theorem abcd_c3 (ctx : ParseCtx) (scratch : ParserScratch) (did dpath lp prov : Bytes)
    (evs : List XmlEvent) (hwn : WellNested evs) (hpath : scratch.xmlTagPath = []) :
    ((parse ctx scratch did dpath lp prov evs).1 = ParseOutcome.noDatasetMetadata ↔
      visitsUnits [] evs = false) ∧
    (visitsUnits [] evs = true →
      (outcomeDataset (parse ctx scratch did dpath lp prov evs).1).isSome = true) := by
  obtain ⟨s2, hrun, hp2, hd2⟩ := runEvents_wn ctx hwn
    { xmlTagPath := scratch.xmlTagPath, values := scratch.values,
      abcdVersion := scratch.abcdVersion, datasetData := none, units := [] }
  dsimp only at hd2
  rw [hpath] at hd2
  simp only [Option.isSome_none, Bool.false_or] at hd2
  cases hdd : s2.datasetData with
  | some d =>
    rw [hdd] at hd2
    simp only [Option.isSome_some] at hd2
    have hout : (parse ctx scratch did dpath lp prov evs).1 =
        ParseOutcome.ok
          { datasetId := did, datasetPath := dpath,
            landingPage := resolveLandingPage ctx d lp, providerName := prov,
            dataset := d, units := s2.units } := by
      simp only [parse]
      rw [hrun]
      simp [hdd]
    rw [hout]
    refine ⟨⟨fun h => absurd h (by simp), fun h => ?_⟩, fun _ => by simp [outcomeDataset]⟩
    rw [h] at hd2
    exact absurd hd2 (by decide)
  | none =>
    rw [hdd] at hd2
    simp only [Option.isSome_none] at hd2
    have hout : (parse ctx scratch did dpath lp prov evs).1 =
        ParseOutcome.noDatasetMetadata := by
      simp only [parse]
      rw [hrun]
      simp [hdd]
    rw [hout]
    refine ⟨⟨fun _ => hd2.symm, fun _ => rfl⟩, fun h => ?_⟩
    rw [h] at hd2
    exact absurd hd2 (by decide)

/-- Witness for C3: the empty stream is well nested, visits no path, and
parsing it fails with `NoDatasetMetadata`. -/
theorem abcd_c3_witness :
    ((parse c7ctx { xmlTagPath := [], values := [], abcdVersion := AbcdVersion.unknown }
        (bytes "i") (bytes "p") (bytes "l") (bytes "n") []).1 =
      ParseOutcome.noDatasetMetadata ↔ visitsUnits [] [] = false) ∧
    (visitsUnits [] [] = true →
      (outcomeDataset
        (parse c7ctx { xmlTagPath := [], values := [], abcdVersion := AbcdVersion.unknown }
          (bytes "i") (bytes "p") (bytes "l") (bytes "n") []).1).isSome = true) :=
  abcd_c3 c7ctx { xmlTagPath := [], values := [], abcdVersion := AbcdVersion.unknown }
    (bytes "i") (bytes "p") (bytes "l") (bytes "n") [] WellNested.nil rfl

/-- Each attribute scan is the identity on the version or a constant
independent of it: the two shapes of `scanVersion`. -/
theorem scanVersion_cases (attrs : List Bytes) :
    (∀ v, scanVersion attrs v = v) ∨
    (∀ v w, scanVersion attrs v = scanVersion attrs w) := by
  induction attrs with
  | nil => exact Or.inl (fun v => rfl)
  | cons a rest ih =>
    by_cases h1 : a = urlVersion206
    · exact Or.inr (fun v w => by simp [scanVersion, h1])
    · by_cases h2 : a = urlVersion210
      · exact Or.inr (fun v w => by simp [scanVersion, h1, h2])
      · cases ih with
        | inl hid => exact Or.inl (fun v => by simp [scanVersion, h1, h2, hid])
        | inr hc =>
          refine Or.inr (fun v w => ?_)
          simp only [scanVersion, if_neg h1, if_neg h2]
          exact hc v w

/-- A step from a state and from the same state with another version field
behaves identically except possibly in the version field, whose two results
are either the respective inputs (no write happened) or equal (the same
value was written). -/
theorem step_version_pair (ctx : ParseCtx) (s : ParserState) (w : AbcdVersion)
    (e : XmlEvent) :
    (∃ p, step ctx s e = Except.error p ∧
      step ctx { s with abcdVersion := w } e = Except.error p) ∨
    (∃ s1 w1, step ctx s e = Except.ok s1 ∧
      step ctx { s with abcdVersion := w } e = Except.ok { s1 with abcdVersion := w1 } ∧
      ((s1.abcdVersion = s.abcdVersion ∧ w1 = w) ∨ w1 = s1.abcdVersion)) := by
  cases e with
  | start tag attrs =>
    right
    by_cases h1 : pushTag s.xmlTagPath tag = bytes "/DataSets"
    · refine ⟨{ s with xmlTagPath := pushTag s.xmlTagPath tag, abcdVersion := scanVersion attrs s.abcdVersion }, scanVersion attrs w, (by simp only [step]; rw [if_pos h1]), (by simp only [step]; rw [if_pos h1]), ?_⟩
      cases scanVersion_cases attrs with
      | inl hid => exact Or.inl ⟨hid s.abcdVersion, hid w⟩
      | inr hc => exact Or.inr (hc w s.abcdVersion)
    · by_cases h2 : pushTag s.xmlTagPath tag = unitsPath
      · exact ⟨{ s with xmlTagPath := pushTag s.xmlTagPath tag, datasetData := some s.values, values := [] }, w, (by simp only [step]; rw [if_neg h1, if_pos h2]), (by simp only [step]; rw [if_neg h1, if_pos h2]), Or.inl ⟨rfl, rfl⟩⟩
      · exact ⟨{ s with xmlTagPath := pushTag s.xmlTagPath tag }, w, (by simp only [step]; rw [if_neg h1, if_neg h2]), (by simp only [step]; rw [if_neg h1, if_neg h2]), Or.inl ⟨rfl, rfl⟩⟩
  | endTag tag =>
    by_cases hlen : (stripTag tag).length + 1 ≤ s.xmlTagPath.length
    · right
      by_cases hu : s.xmlTagPath.take (s.xmlTagPath.length - (stripTag tag).length - 1) = unitsPath ∧ stripTag tag = bytes "Unit"
      · exact ⟨{ s with xmlTagPath := s.xmlTagPath.take (s.xmlTagPath.length - (stripTag tag).length - 1), units := s.units ++ [s.values], values := [] }, w, (by simp only [step]; rw [if_pos hlen, if_pos hu]), (by simp only [step]; rw [if_pos hlen, if_pos hu]), Or.inl ⟨rfl, rfl⟩⟩
      · exact ⟨{ s with xmlTagPath := s.xmlTagPath.take (s.xmlTagPath.length - (stripTag tag).length - 1) }, w, (by simp only [step]; rw [if_pos hlen, if_neg hu]), (by simp only [step]; rw [if_pos hlen, if_neg hu]), Or.inl ⟨rfl, rfl⟩⟩
    · left
      exact ⟨Panic.underflow, (by simp only [step]; rw [if_neg hlen]), (by simp only [step]; rw [if_neg hlen])⟩
  | text t =>
    right
    cases hval : valueOf ctx.fields s.xmlTagPath with
    | none => exact ⟨s, w, (by simp only [step, hval]), (by simp only [step, hval]), Or.inl ⟨rfl, rfl⟩⟩
    | some f =>
      cases hn : f.numeric with
      | true =>
        cases hq : ctx.parseNum t with
        | some q => exact ⟨{ s with values := minsert s.values f.name (VatType.numeric q) }, w, (by simp only [step, hval]; simp [hn, hq]), (by simp only [step, hval]; simp [hn, hq]), Or.inl ⟨rfl, rfl⟩⟩
        | none => exact ⟨s, w, (by simp only [step, hval]; simp [hn, hq]), (by simp only [step, hval]; simp [hn, hq]), Or.inl ⟨rfl, rfl⟩⟩
      | false =>
        exact ⟨{ s with values := minsert s.values f.name (VatType.textual t) }, w, (by simp only [step, hval]; simp [hn]), (by simp only [step, hval]; simp [hn]), Or.inl ⟨rfl, rfl⟩⟩
  | readErr => exact Or.inl ⟨Panic.readError, rfl, rfl⟩

/-- Loop-level version-pair simulation: two runs differing only in the
initial version field fail identically or succeed with states differing
only in the version field, which either kept both inputs or agrees. -/
theorem runEvents_version_pair (ctx : ParseCtx) :
    ∀ (evs : List XmlEvent) (s : ParserState) (w : AbcdVersion),
      (∃ p, runEvents ctx s evs = Except.error p ∧
        runEvents ctx { s with abcdVersion := w } evs = Except.error p) ∨
      (∃ S tv, runEvents ctx s evs = Except.ok S ∧
        runEvents ctx { s with abcdVersion := w } evs =
          Except.ok { S with abcdVersion := tv } ∧
        ((tv = w ∧ S.abcdVersion = s.abcdVersion) ∨ tv = S.abcdVersion)) := by
  intro evs
  induction evs with
  | nil =>
    intro s w
    exact Or.inr ⟨s, w, rfl, rfl, Or.inl ⟨rfl, rfl⟩⟩
  | cons e rest ih =>
    intro s w
    rcases step_version_pair ctx s w e with ⟨p, hs1, hs2⟩ | ⟨s1, w1, hs1, hs2, hver⟩
    · exact Or.inl ⟨p, (by simp only [runEvents, hs1]), (by simp only [runEvents, hs2])⟩
    · rcases hver with ⟨hv1, hw1⟩ | hw1
      · rw [hw1] at hs2
        rcases ih s1 w with ⟨p, h1, h2⟩ | ⟨S, tv, h1, h2, hv⟩
        · refine Or.inl ⟨p, ?_, ?_⟩
          · simp only [runEvents, hs1]
            exact h1
          · simp only [runEvents, hs2]
            exact h2
        · refine Or.inr ⟨S, tv, ?_, ?_, ?_⟩
          · simp only [runEvents, hs1]
            exact h1
          · simp only [runEvents, hs2]
            exact h2
          · rcases hv with ⟨ha, hb⟩ | hc
            · exact Or.inl ⟨ha, hb.trans hv1⟩
            · exact Or.inr hc
      · subst hw1
        have heq : ({ s1 with abcdVersion := s1.abcdVersion } : ParserState) = s1 := rfl
        cases hres : runEvents ctx s1 rest with
        | error p =>
          refine Or.inl ⟨p, ?_, ?_⟩
          · simp only [runEvents, hs1]
            exact hres
          · simp only [runEvents, hs2]
            rw [heq]
            exact hres
        | ok S =>
          refine Or.inr ⟨S, S.abcdVersion, ?_, ?_, Or.inr rfl⟩
          · simp only [runEvents, hs1]
            exact hres
          · simp only [runEvents, hs2]
            rw [heq, hres]

/-- C9: a `parse` call that returns (rather than panicking) hands back a
parser whose scratch state is fully reset, and a second call on that parser
with the same arguments returns the identical outcome — in particular the
identical dataset map and the identical ordered unit maps — and the
identical scratch state. -/
theorem abcd_c9 (ctx : ParseCtx) (v0 : AbcdVersion) (did dpath lp prov : Bytes)
    (evs : List XmlEvent)
    (h : ∀ p, (parse ctx { xmlTagPath := [], values := [], abcdVersion := v0 }
        did dpath lp prov evs).1 ≠ ParseOutcome.panic p) :
    parse ctx
        (parse ctx { xmlTagPath := [], values := [], abcdVersion := v0 }
          did dpath lp prov evs).2 did dpath lp prov evs =
      parse ctx { xmlTagPath := [], values := [], abcdVersion := v0 }
        did dpath lp prov evs := by
  cases hrun : runEvents ctx { xmlTagPath := [], values := [], abcdVersion := v0, datasetData := none, units := [] } evs with
  | error p =>
    exfalso
    apply h p
    simp only [parse]
    rw [hrun]
  | ok S =>
    rcases runEvents_version_pair ctx evs { xmlTagPath := [], values := [], abcdVersion := v0, datasetData := none, units := [] } S.abcdVersion with ⟨p, h1, h2⟩ | ⟨S, tv, h1, h2, hv⟩
    · rw [hrun] at h1
      cases h1
    · rw [hrun] at h1
      injection h1 with h1
      subst h1
      have htv : tv = S.abcdVersion := by
        rcases hv with ⟨ha, _⟩ | hc
        · exact ha
        · exact hc
      rw [htv] at h2
      have h2x : runEvents ctx { xmlTagPath := [], values := [], abcdVersion := S.abcdVersion, datasetData := none, units := [] } evs = Except.ok S := h2
      cases hdd : S.datasetData with
      | some d =>
        have e1 : parse ctx { xmlTagPath := [], values := [], abcdVersion := v0 } did dpath lp prov evs = (ParseOutcome.ok { datasetId := did, datasetPath := dpath, landingPage := resolveLandingPage ctx d lp, providerName := prov, dataset := d, units := S.units }, { xmlTagPath := [], values := [], abcdVersion := S.abcdVersion }) := by
          simp only [parse]
          rw [hrun]
          simp [hdd]
        have e2 : parse ctx { xmlTagPath := [], values := [], abcdVersion := S.abcdVersion } did dpath lp prov evs = (ParseOutcome.ok { datasetId := did, datasetPath := dpath, landingPage := resolveLandingPage ctx d lp, providerName := prov, dataset := d, units := S.units }, { xmlTagPath := [], values := [], abcdVersion := S.abcdVersion }) := by
          simp only [parse]
          rw [h2x]
          simp [hdd]
        rw [e1]
        exact e2
      | none =>
        have e1 : parse ctx { xmlTagPath := [], values := [], abcdVersion := v0 } did dpath lp prov evs = (ParseOutcome.noDatasetMetadata, { xmlTagPath := [], values := [], abcdVersion := S.abcdVersion }) := by
          simp only [parse]
          rw [hrun]
          simp [hdd]
        have e2 : parse ctx { xmlTagPath := [], values := [], abcdVersion := S.abcdVersion } did dpath lp prov evs = (ParseOutcome.noDatasetMetadata, { xmlTagPath := [], values := [], abcdVersion := S.abcdVersion }) := by
          simp only [parse]
          rw [h2x]
          simp [hdd]
        rw [e1]
        exact e2

/-- Witness for C9: the one-event stream opening `DataSets` parses to
`NoDatasetMetadata` without panicking, and a second call returns the same
pair. -/
theorem abcd_c9_witness :
    parse c7ctx
        (parse c7ctx { xmlTagPath := [], values := [], abcdVersion := AbcdVersion.unknown }
          (bytes "i") (bytes "p") (bytes "l") (bytes "n")
          [XmlEvent.start (bytes "DataSets") []]).2
        (bytes "i") (bytes "p") (bytes "l") (bytes "n")
        [XmlEvent.start (bytes "DataSets") []] =
      parse c7ctx { xmlTagPath := [], values := [], abcdVersion := AbcdVersion.unknown }
        (bytes "i") (bytes "p") (bytes "l") (bytes "n")
        [XmlEvent.start (bytes "DataSets") []] :=
  abcd_c9 c7ctx AbcdVersion.unknown (bytes "i") (bytes "p") (bytes "l") (bytes "n")
    [XmlEvent.start (bytes "DataSets") []]
    (fun p => by cases p <;> decide)
